import Mathlib

/-!
Verification of the bart task-orchestration core: a shallow embedding of the
dependency scheduler (`tasks.ts`), the history ledger and specialist model
(`specialists.ts`), and the execution controller's reset, milestone and
error-escalation logic (the cli entry file), with theorems checking the
documented behavior.  File paths and wall-clock reads are passed in as
explicit values; JavaScript numbers are modelled as `Nat`/`Int`/`ℚ`.
-/

namespace Bart

/-- Status of a task, as in the `Task` interface of `constants.ts`. -/
inductive TaskStatus where
  | pending
  | in_progress
  | completed
  | error
deriving DecidableEq, Repr

/-- Coverage status of a requirement (`"none" | "partial" | "complete"`). -/
inductive ReqStatus where
  | noCover
  | partCover
  | fullCover
deriving DecidableEq, Repr

/-- A task record, following the `Task` interface in `constants.ts`. -/
structure Task where
  id : String
  workstream : String
  title : String
  description : String
  files : List String
  depends_on : List String
  status : TaskStatus
  requirements : Option (List String) := none
  specialist : Option String := none
  files_modified : List String := []
  started_at : Option String := none
  completed_at : Option String := none
  error : Option String := none
deriving DecidableEq, Repr

/-- A requirement record, following the `Requirement` interface in `constants.ts`. -/
structure Requirement where
  id : String
  description : String
  covered_by : List String
  status : ReqStatus
deriving DecidableEq, Repr

/-- Kind of a specialist profile (`"command" | "agent" | "skill"`). -/
inductive SpecialistType where
  | command
  | agent
  | skill
deriving DecidableEq, Repr

/-- A specialist profile, following the `Specialist` interface in `constants.ts`. -/
structure Specialist where
  name : String
  description : String
  type : SpecialistType
  path : String
  tools : Option (List String) := none
deriving DecidableEq, Repr

/-- The aggregate task document, following the `TasksData` interface in `constants.ts`. -/
structure TasksData where
  project : Option String := none
  plan_file : Option String := none
  project_root : Option String := none
  requirements : Option (List Requirement) := none
  specialists : Option (List Specialist) := none
  tasks : List Task
deriving DecidableEq, Repr

/-- Kind of a history event (`"completed" | "error" | "reset"`). -/
inductive HistoryEvent where
  | completed
  | error
  | reset
deriving DecidableEq, Repr

/-- One line of the append-only history ledger, following the `HistoryEntry`
interface in `constants.ts`.  The `List HistoryEntry` values threaded through
the development stand for the parsed content of `.bart/history.jsonl`. -/
structure HistoryEntry where
  timestamp : String
  event : HistoryEvent
  task_id : String
  plan_slug : String
  specialist : Option String
  status : HistoryEvent
  duration_ms : Option Int
  resets : Nat
  files : List String
  workstream : String
  title : String
deriving DecidableEq, Repr

/-! ### Dependency scheduler (`tasks.ts`) -/

/-- Whether the workstream filter keeps a task: mirrors the guard
`if (workstream && task.workstream !== workstream) continue` in
`findNextTask`, where a missing filter or the empty string is falsy in
JavaScript and disables filtering. -/
def wsKeep (workstream : Option String) (t : Task) : Bool :=
  match workstream with
  | none => true
  | some w => decide (w = "") || decide (t.workstream = w)

/-- Whether every dependency of `t` resolves to a task currently completed:
mirrors the `deps.every(...)` check of `findNextTask` in `tasks.ts`, where a
dependency id that finds no task makes `dep?.status === "completed"` false. -/
def depsAllMet (data : TasksData) (t : Task) : Bool :=
  t.depends_on.all fun depId =>
    match data.tasks.find? (fun u => decide (u.id = depId)) with
    | some dep => decide (dep.status = TaskStatus.completed)
    | none => false

/-- The dependency scheduler `findNextTask` from `tasks.ts`: filter the tasks
to the pending ones in document order, then return the id of the first one
that passes the workstream filter and whose dependencies are all completed. -/
def findNextTask (data : TasksData) (workstream : Option String) : Option String :=
  let pending := data.tasks.filter (fun t => decide (t.status = TaskStatus.pending))
  (pending.find? (fun t => wsKeep workstream t && depsAllMet data t)).map (fun t => t.id)

/-- Eligibility predicate assembled from the claim wording for the scheduler:
the task is pending, its workstream equals the filter when one is given, and
every id in `depends_on` resolves to an existing task with status completed. -/
def eligibleClaim (data : TasksData) (workstream : Option String) (t : Task) : Bool :=
  decide (t.status = TaskStatus.pending) &&
    (match workstream with
     | none => true
     | some w => decide (t.workstream = w)) &&
    depsAllMet data t

/-- Finding in a filtered list is finding with the conjoined predicate. -/
theorem find?_filter {α : Type} (l : List α) (p q : α → Bool) :
    (l.filter p).find? q = l.find? (fun a => p a && q a) := by
  induction l with
  | nil => rfl
  | cons a l ih =>
    cases hp : p a with
    | false => simp [List.filter_cons, hp, List.find?, ih]
    | true =>
      cases hq : q a with
      | true => simp [List.filter_cons, hp, List.find?, hq]
      | false => simp [List.filter_cons, hp, List.find?, hq, ih]

/-- C1: for every task document and optional workstream filter (a filter, when
given, being a nonempty workstream name), `findNextTask` returns exactly the
id of the first task in document order that is pending, matches the filter,
and has every dependency resolving to an existing completed task — and `none`
when no such task exists.  In particular it never returns a non-pending task,
never returns a task with an unsatisfied dependency, and never returns a task
with a dependency id absent from the graph (fail-closed). -/
theorem findNextTask_claim (data : TasksData) (workstream : Option String)
    (hws : ∀ w, workstream = some w → w ≠ "") :
    findNextTask data workstream =
      (data.tasks.find? (eligibleClaim data workstream)).map (fun t => t.id) := by
  show (((data.tasks.filter (fun t => decide (t.status = TaskStatus.pending))).find?
      (fun t => wsKeep workstream t && depsAllMet data t)).map (fun t => t.id)) = _
  rw [find?_filter]
  have hpred : (fun t => decide (t.status = TaskStatus.pending) &&
      (wsKeep workstream t && depsAllMet data t)) = eligibleClaim data workstream := by
    funext t
    cases hws' : workstream with
    | none => simp [eligibleClaim, wsKeep, Bool.and_assoc]
    | some w =>
      have hw : decide (w = "") = false := by
        simp [hws w hws']
      simp [eligibleClaim, wsKeep, hw, Bool.and_assoc]
  rw [hpred]

/-- Completed task used by the scheduler examples. -/
def taskA : Task :=
  { id := "A", workstream := "W", title := "a", description := "", files := [],
    depends_on := [], status := TaskStatus.completed }

/-- Pending task whose only dependency is the completed `taskA`. -/
def taskB : Task :=
  { id := "B", workstream := "W", title := "b", description := "", files := [],
    depends_on := ["A"], status := TaskStatus.pending }

/-- Pending task with a dependency id that exists nowhere in the graph. -/
def taskC : Task :=
  { id := "C", workstream := "W", title := "c", description := "", files := [],
    depends_on := ["Z"], status := TaskStatus.pending }

/-- Scheduler example document: one completed task, one runnable task, one
task blocked forever on a missing dependency. -/
def schedData : TasksData := { tasks := [taskA, taskB, taskC] }

/-- Witness for C1 at a concrete document with no workstream filter. -/
theorem findNextTask_claim_witness :
    (∀ w, (none : Option String) = some w → w ≠ "") ∧
      findNextTask schedData none =
        (schedData.tasks.find? (eligibleClaim schedData none)).map (fun t => t.id) :=
  ⟨fun _ h => Option.noConfusion h,
    findNextTask_claim schedData none (fun _ h => Option.noConfusion h)⟩

/-! ### Signal-handler revert and stale-task recovery (cli entry file) -/

/-- Field update applied to a stale or signal-reverted task: status back to
pending and the start time cleared, every other field carried over. -/
def revertTask (t : Task) : Task :=
  { t with status := TaskStatus.pending, started_at := none }

/-- Apply an update to the first task carrying the given id, leaving every
other task untouched: mirrors `findIndex(t => t.id === taskId)` followed by an
in-place mutation of that element. -/
def updateFirstById (taskId : String) (f : Task → Task) : List Task → List Task
  | [] => []
  | t :: ts => if t.id = taskId then f t :: ts else t :: updateFirstById taskId f ts

/-- The signal-handler revert `resetInProgressTask` from the cli entry file:
find the task by id and, only when its status is `in_progress`, set it back to
pending with a cleared start time; otherwise the document is left as is. -/
def resetInProgressTask (data : TasksData) (taskId : String) : TasksData :=
  { data with
      tasks := updateFirstById taskId
        (fun t => if t.status = TaskStatus.in_progress then revertTask t else t) data.tasks }

/-- Stale-task recovery performed at the start of an unattended run (the
`run` command): every task stuck in `in_progress` is set back to pending with
a cleared start time; all other tasks are untouched. -/
def recoverStaleTasks (data : TasksData) : TasksData :=
  { data with
      tasks := data.tasks.map
        (fun t => if t.status = TaskStatus.in_progress then revertTask t else t) }
/-- Elementwise frame relation for `updateFirstById` with a conditional revert. -/
theorem updateFirstById_frame (taskId : String) (ts : List Task) :
    List.Forall₂ (fun t t' =>
        (t' = t ∨ (t.id = taskId ∧ t.status = TaskStatus.in_progress ∧ t' = revertTask t)) ∧
          (t.status ≠ TaskStatus.in_progress → t' = t))
      ts (updateFirstById taskId
        (fun t => if t.status = TaskStatus.in_progress then revertTask t else t) ts) := by
  induction ts with
  | nil => exact List.Forall₂.nil
  | cons t ts ih =>
    show List.Forall₂ _ (t :: ts) (if t.id = taskId then _ else _)
    by_cases hid : t.id = taskId
    · rw [if_pos hid]
      show List.Forall₂ _ (t :: ts)
        ((if t.status = TaskStatus.in_progress then revertTask t else t) :: ts)
      by_cases hst : t.status = TaskStatus.in_progress
      · rw [if_pos hst]
        exact List.Forall₂.cons ⟨Or.inr ⟨hid, hst, rfl⟩, fun h => absurd hst h⟩
          (List.forall₂_same.mpr (fun x _ => ⟨Or.inl rfl, fun _ => rfl⟩))
      · rw [if_neg hst]
        exact List.Forall₂.cons ⟨Or.inl rfl, fun _ => rfl⟩
          (List.forall₂_same.mpr (fun x _ => ⟨Or.inl rfl, fun _ => rfl⟩))
    · rw [if_neg hid]
      exact List.Forall₂.cons ⟨Or.inl rfl, fun _ => rfl⟩ ih

/-- C10: the signal-handler revert and the run-start stale-task recovery only
modify tasks whose status is exactly `in_progress`, and for those change only
`status` (to pending) and `started_at` (to null); the revert touches at most
the task with the given id; every other task, every other field (`revertTask`
carries them over), and every non-task field of the document are unchanged. -/
theorem recovery_frame_claim (data : TasksData) (taskId : String) :
    List.Forall₂ (fun t t' =>
        (t' = t ∨ (t.id = taskId ∧ t.status = TaskStatus.in_progress ∧ t' = revertTask t)) ∧
          (t.status ≠ TaskStatus.in_progress → t' = t))
      data.tasks (resetInProgressTask data taskId).tasks ∧
    List.Forall₂ (fun t t' =>
        (t.status = TaskStatus.in_progress → t' = revertTask t) ∧
          (t.status ≠ TaskStatus.in_progress → t' = t))
      data.tasks (recoverStaleTasks data).tasks ∧
    (resetInProgressTask data taskId).project = data.project ∧
    (resetInProgressTask data taskId).requirements = data.requirements ∧
    (recoverStaleTasks data).project = data.project ∧
    (recoverStaleTasks data).requirements = data.requirements := by
  refine ⟨updateFirstById_frame taskId data.tasks, ?_, rfl, rfl, rfl, rfl⟩
  show List.Forall₂ _ data.tasks (data.tasks.map _)
  rw [List.forall₂_map_right_iff]
  exact List.forall₂_same.mpr (fun t _ => ⟨fun h => by simp [h], fun h => by simp [h]⟩)

/-! ### The `reset` command (cli entry file) -/

/-- JavaScript `value || null` on an optional string: the empty string is
falsy and becomes null. -/
def jsSpecOrNull (s : Option String) : Option String :=
  match s with
  | some "" => none
  | x => x

/-- Field update applied by the `reset` command: back to pending with start
time, completion time and error message all cleared. -/
def resetTaskFields (t : Task) : Task :=
  { t with
      status := TaskStatus.pending, started_at := none,
      completed_at := none, error := none }

/-- Count of `reset` history events for one task+plan pair:
`countResetsForTask` from `specialists.ts`, over the in-memory entry list
standing for the loaded ledger. -/
def countResetsForTask (entries : List HistoryEntry) (taskId planSlug : String) : Nat :=
  (entries.filter (fun e =>
    decide (e.event = HistoryEvent.reset) && decide (e.task_id = taskId) &&
      decide (e.plan_slug = planSlug))).length

/-- History entry appended by one `reset` invocation, built from the found
task as in the `reset` command: event `reset`, null duration, and a `resets`
field one above the count of prior reset events. -/
def resetHistoryEntry (t : Task) (taskId planSlug nowTs : String) (prevResets : Nat) :
    HistoryEntry :=
  { timestamp := nowTs, event := HistoryEvent.reset, task_id := taskId,
    plan_slug := planSlug, specialist := jsSpecOrNull t.specialist,
    status := HistoryEvent.reset, duration_ms := none, resets := prevResets + 1,
    files := t.files, workstream := t.workstream, title := t.title }

/-- Helper mirroring `findIndex` plus the field assignments of the `reset`
command: the updated task list together with the found task, or `none` when
no task carries the id. -/
def resetFirstById (taskId : String) : List Task → Option (List Task × Task)
  | [] => none
  | t :: ts =>
    if t.id = taskId then some (resetTaskFields t :: ts, t)
    else (resetFirstById taskId ts).map (fun p => (t :: p.1, p.2))

/-- The `reset` command from the cli `main` (case `"reset"`): exit when the
task id is unknown, otherwise set the task back to pending with cleared
timestamps and error, and append one `reset` history entry whose `resets`
field is one above the count of prior resets for that task+plan. -/
def resetCommand (data : TasksData) (history : List HistoryEntry)
    (taskId planSlug nowTs : String) : Option (TasksData × List HistoryEntry) :=
  match resetFirstById taskId data.tasks with
  | none => none
  | some (ts, t) =>
    some ({ data with tasks := ts },
      history ++ [resetHistoryEntry t taskId planSlug nowTs
        (countResetsForTask history taskId planSlug)])

/-- Splitting characterization of a successful `resetFirstById`. -/
theorem resetFirstById_eq_some (taskId : String) (ts ts₂ : List Task) (t : Task)
    (h : resetFirstById taskId ts = some (ts₂, t)) :
    ∃ pre post, ts = pre ++ t :: post ∧ (∀ u ∈ pre, u.id ≠ taskId) ∧
      t.id = taskId ∧ ts₂ = pre ++ resetTaskFields t :: post := by
  induction ts generalizing ts₂ with
  | nil => exact absurd h (by simp [resetFirstById])
  | cons a as ih =>
    by_cases hid : a.id = taskId
    · refine ⟨[], as, ?_⟩
      simp only [resetFirstById, hid, if_pos, Option.some.injEq, Prod.mk.injEq] at h
      obtain ⟨h1, h2⟩ := h
      subst h2
      simp [hid, h1.symm]
    · simp only [resetFirstById, hid, if_neg, not_false_iff, Option.map_eq_some'] at h
      obtain ⟨⟨bs, b⟩, hb, heq⟩ := h
      rw [Prod.ext_iff] at heq
      obtain ⟨h1, h2⟩ := heq
      simp only at h1 h2
      subst h2
      obtain ⟨pre, post, hsplit, hpre, hidb, hts⟩ := ih bs hb
      refine ⟨a :: pre, post, by simp [hsplit], ?_, hidb, by simp [← h1, hts]⟩
      intro u hu
      rcases List.mem_cons.mp hu with h | h
      · subst h; exact hid
      · exact hpre u h

/-- Computation of `resetFirstById` on a split list whose head part misses the id. -/
theorem resetFirstById_append (taskId : String) (pre post : List Task) (t : Task)
    (hpre : ∀ u ∈ pre, u.id ≠ taskId) (hid : t.id = taskId) :
    resetFirstById taskId (pre ++ t :: post) =
      some (pre ++ resetTaskFields t :: post, t) := by
  induction pre with
  | nil => simp [resetFirstById, hid]
  | cons a as ih =>
    have ha : a.id ≠ taskId := hpre a (List.mem_cons_self a as)
    have hrec := ih (fun u hu => hpre u (List.mem_cons_of_mem a hu))
    simp [resetFirstById, ha, hrec]

/-- Computation of `resetCommand` once the target task is located. -/
theorem resetCommand_of_found (data : TasksData) (history : List HistoryEntry)
    (taskId planSlug nowTs : String) (pre post : List Task) (t : Task)
    (hpre : ∀ u ∈ pre, u.id ≠ taskId) (hid : t.id = taskId)
    (htasks : data.tasks = pre ++ t :: post) :
    resetCommand data history taskId planSlug nowTs =
      some ({ data with tasks := pre ++ resetTaskFields t :: post },
        history ++ [resetHistoryEntry t taskId planSlug nowTs
          (countResetsForTask history taskId planSlug)]) := by
  unfold resetCommand
  rw [htasks, resetFirstById_append taskId pre post t hpre hid]

/-- C4: when the reset target exists (in any status), `resetCommand` updates
exactly the first task with the id — to pending with `started_at`,
`completed_at` and `error` all null — touches nothing else, and appends
exactly one `reset` history entry whose `resets` field is the count of prior
reset events for that task+plan, plus one.  Repeating the command leaves the
task document unchanged (idempotent in effect on state) but appends a further
entry with the next `resets` value (not idempotent on history). -/
theorem resetCommand_claim (data : TasksData) (history : List HistoryEntry)
    (taskId planSlug nowTs : String) (d₂ : TasksData) (h₂ : List HistoryEntry)
    (h : resetCommand data history taskId planSlug nowTs = some (d₂, h₂)) :
    (∃ pre t post, data.tasks = pre ++ t :: post ∧ (∀ u ∈ pre, u.id ≠ taskId) ∧
        t.id = taskId ∧ d₂.tasks = pre ++ resetTaskFields t :: post ∧
        h₂ = history ++ [resetHistoryEntry t taskId planSlug nowTs
          (countResetsForTask history taskId planSlug)]) ∧
    (∃ e, h₂ = history ++ [e] ∧ e.event = HistoryEvent.reset ∧ e.task_id = taskId ∧
        e.plan_slug = planSlug ∧ e.duration_ms = none ∧
        e.resets = countResetsForTask history taskId planSlug + 1) ∧
    (∀ nowTs₂, ∃ e₂, resetCommand d₂ h₂ taskId planSlug nowTs₂ = some (d₂, h₂ ++ [e₂]) ∧
        e₂.resets = countResetsForTask history taskId planSlug + 2) := by
  unfold resetCommand at h
  cases hfind : resetFirstById taskId data.tasks with
  | none => rw [hfind] at h; exact absurd h (by simp)
  | some p =>
    obtain ⟨ts, t⟩ := p
    rw [hfind] at h
    simp only [Option.some.injEq, Prod.mk.injEq] at h
    obtain ⟨hd, hh⟩ := h
    obtain ⟨pre, post, hsplit, hpre, hid, hts⟩ := resetFirstById_eq_some taskId _ _ _ hfind
    have hd₂tasks : d₂.tasks = pre ++ resetTaskFields t :: post := by
      rw [← hd]; exact hts
    have hh₂ : h₂ = history ++ [resetHistoryEntry t taskId planSlug nowTs
        (countResetsForTask history taskId planSlug)] := hh.symm
    have hcount : countResetsForTask h₂ taskId planSlug =
        countResetsForTask history taskId planSlug + 1 := by
      rw [hh₂]
      simp [countResetsForTask, List.filter_append, resetHistoryEntry]
    refine ⟨⟨pre, t, post, hsplit, hpre, hid, hd₂tasks, hh₂⟩,
      ⟨resetHistoryEntry t taskId planSlug nowTs
        (countResetsForTask history taskId planSlug), hh₂, rfl, rfl, rfl, rfl, rfl⟩, ?_⟩
    intro nowTs₂
    have hid₂ : (resetTaskFields t).id = taskId := hid
    have key := resetCommand_of_found d₂ h₂ taskId planSlug nowTs₂ pre post
      (resetTaskFields t) hpre hid₂ hd₂tasks
    have hrr : resetTaskFields (resetTaskFields t) = resetTaskFields t := rfl
    refine ⟨resetHistoryEntry (resetTaskFields t) taskId planSlug nowTs₂
        (countResetsForTask h₂ taskId planSlug), ?_, by simp [resetHistoryEntry, hcount]⟩
    rw [key, hrr, ← hd₂tasks]

/-- Errored task used by the reset-command example, with every clearable
field populated. -/
def resetDemoTask : Task :=
  { id := "R", workstream := "A", title := "r", description := "", files := [],
    depends_on := [], status := TaskStatus.error, started_at := some "s",
    completed_at := some "c", error := some "boom" }

/-- Document holding the reset-command example task. -/
def resetDemoData : TasksData := { tasks := [resetDemoTask] }

/-- Expected document after resetting the example task. -/
def resetDemoData₂ : TasksData := { tasks := [resetTaskFields resetDemoTask] }

/-- Expected ledger after resetting the example task once over an empty history. -/
def resetDemoHist : List HistoryEntry :=
  [resetHistoryEntry resetDemoTask "R" "p" "ts" 0]

/-- Witness for C4 at a concrete errored task and empty prior history. -/
theorem resetCommand_claim_witness :
    resetCommand resetDemoData [] "R" "p" "ts" = some (resetDemoData₂, resetDemoHist) ∧
      ((∃ pre t post, resetDemoData.tasks = pre ++ t :: post ∧
          (∀ u ∈ pre, u.id ≠ "R") ∧ t.id = "R" ∧
          resetDemoData₂.tasks = pre ++ resetTaskFields t :: post ∧
          resetDemoHist = [] ++ [resetHistoryEntry t "R" "p" "ts"
            (countResetsForTask [] "R" "p")]) ∧
        (∃ e, resetDemoHist = [] ++ [e] ∧ e.event = HistoryEvent.reset ∧
            e.task_id = "R" ∧ e.plan_slug = "p" ∧ e.duration_ms = none ∧
            e.resets = countResetsForTask [] "R" "p" + 1) ∧
        (∀ nowTs₂, ∃ e₂, resetCommand resetDemoData₂ resetDemoHist "R" "p" nowTs₂ =
            some (resetDemoData₂, resetDemoHist ++ [e₂]) ∧
            e₂.resets = countResetsForTask [] "R" "p" + 2)) :=
  ⟨by decide, resetCommand_claim resetDemoData [] "R" "p" "ts"
    resetDemoData₂ resetDemoHist (by decide)⟩

/-! ### Milestone tracking (cli entry file) -/

/-- The fixed milestone thresholds, `MILESTONE_THRESHOLDS` in the cli entry file. -/
def MILESTONE_THRESHOLDS : List Nat := [25, 50, 80, 100]

/-- JavaScript `Math.round` on a nonnegative rational: the floor of the value
plus one half. -/
def jsRound (q : ℚ) : ℤ := Int.floor (q + 1/2)

/-- Completion percentage as computed in the cli entry file:
`Math.round((completed / total) * 100)`. -/
def completionPct (completedCount total : Nat) : ℤ :=
  jsRound ((completedCount * 100 : ℚ) / (total : ℚ))

/-- The run command's seeding of the fired-milestone set before the unattended
loop starts: every threshold already reached by the initial completion
percentage is marked fired (no thresholds when the document has no tasks). -/
def seedMilestones (completedCount total : Nat) : List Nat :=
  if total = 0 then []
  else MILESTONE_THRESHOLDS.filter
    (fun th => decide ((th : ℤ) ≤ completionPct completedCount total))

/-- The milestone loop body in `runAgent`: walk the thresholds in ascending
order, firing (and marking fired) each one reached by the percentage and not
yet in the fired set.  Returns the thresholds fired now and the updated set. -/
def fireLoop (pct : ℤ) : List Nat → List Nat → List Nat × List Nat
  | [], fired => ([], fired)
  | th :: rest, fired =>
    if (th : ℤ) ≤ pct ∧ th ∉ fired then
      let out := fireLoop pct rest (fired ++ [th])
      (th :: out.1, out.2)
    else fireLoop pct rest fired

/-- One milestone evaluation after a task completes, guarded by
`milestoneTotal > 0` as in `runAgent`. -/
def milestoneStep (fired : List Nat) (completedCount total : Nat) : List Nat × List Nat :=
  if total = 0 then ([], fired)
  else fireLoop (completionPct completedCount total) MILESTONE_THRESHOLDS fired

/-- Milestones fired over a whole run: each step supplies the completed count
and total read from the task document after one task completion, and the
fired set is threaded through. -/
def runMilestones : List (Nat × Nat) → List Nat → List Nat
  | [], _ => []
  | step :: rest, fired =>
    let out := milestoneStep fired step.1 step.2
    out.1 ++ runMilestones rest out.2

/-- The fired set only grows across one `fireLoop` walk. -/
theorem fireLoop_fired_mono (pct : ℤ) (ths : List Nat) (fired : List Nat) (x : Nat)
    (hx : x ∈ fired) : x ∈ (fireLoop pct ths fired).2 := by
  induction ths generalizing fired with
  | nil => exact hx
  | cons th rest ih =>
    show x ∈ (if (th : ℤ) ≤ pct ∧ th ∉ fired then _ else _ : List Nat × List Nat).2
    by_cases hc : (th : ℤ) ≤ pct ∧ th ∉ fired
    · rw [if_pos hc]
      exact ih (fired ++ [th]) (List.mem_append_left _ hx)
    · rw [if_neg hc]
      exact ih fired hx

/-- A threshold fired by `fireLoop` was not already in the fired set, and is
in the updated set afterwards. -/
theorem fireLoop_fires_fresh (pct : ℤ) (ths : List Nat) (fired : List Nat) (x : Nat)
    (hx : x ∈ (fireLoop pct ths fired).1) :
    x ∉ fired ∧ x ∈ (fireLoop pct ths fired).2 := by
  induction ths generalizing fired with
  | nil => exact absurd hx (by simp [fireLoop])
  | cons th rest ih =>
    by_cases hc : (th : ℤ) ≤ pct ∧ th ∉ fired
    · have hsplit : fireLoop pct (th :: rest) fired =
          (th :: (fireLoop pct rest (fired ++ [th])).1,
            (fireLoop pct rest (fired ++ [th])).2) := by
        show (if (th : ℤ) ≤ pct ∧ th ∉ fired then _ else _) = _
        rw [if_pos hc]
      rw [hsplit] at hx ⊢
      rcases List.mem_cons.mp hx with hxe | hx
      · constructor
        · rw [hxe]; exact hc.2
        · rw [hxe]
          exact fireLoop_fired_mono pct rest (fired ++ [th]) th
            (List.mem_append_right _ (List.mem_singleton.mpr rfl))
      · have := ih (fired ++ [th]) hx
        exact ⟨fun hmem => this.1 (List.mem_append_left _ hmem), this.2⟩
    · have hsplit : fireLoop pct (th :: rest) fired = fireLoop pct rest fired := by
        show (if (th : ℤ) ≤ pct ∧ th ∉ fired then _ else _) = _
        rw [if_neg hc]
      rw [hsplit] at hx ⊢
      exact ih fired hx

/-- Within one `fireLoop` walk, a threshold fires at most once. -/
theorem fireLoop_count_le_one (pct : ℤ) (ths : List Nat) (fired : List Nat) (x : Nat) :
    List.count x (fireLoop pct ths fired).1 ≤ 1 := by
  induction ths generalizing fired with
  | nil => simp [fireLoop]
  | cons th rest ih =>
    by_cases hc : (th : ℤ) ≤ pct ∧ th ∉ fired
    · have hsplit : fireLoop pct (th :: rest) fired =
          (th :: (fireLoop pct rest (fired ++ [th])).1,
            (fireLoop pct rest (fired ++ [th])).2) := by
        show (if (th : ℤ) ≤ pct ∧ th ∉ fired then _ else _) = _
        rw [if_pos hc]
      rw [hsplit]
      by_cases hxth : x = th
      · subst hxth
        have hnot : x ∉ (fireLoop pct rest (fired ++ [x])).1 := fun hmem =>
          (fireLoop_fires_fresh pct rest (fired ++ [x]) x hmem).1
            (List.mem_append_right _ (List.mem_singleton.mpr rfl))
        simp [List.count_cons, List.count_eq_zero.mpr hnot]
      · simp only [List.count_cons]
        have : (th == x) = false := by
          simp [Ne.symm hxth]
        rw [this]
        simpa using ih (fired ++ [th])
    · have hsplit : fireLoop pct (th :: rest) fired = fireLoop pct rest fired := by
        show (if (th : ℤ) ≤ pct ∧ th ∉ fired then _ else _) = _
        rw [if_neg hc]
      rw [hsplit]
      exact ih fired

/-- A threshold already in the fired set never fires again across a run. -/
theorem runMilestones_not_refired (steps : List (Nat × Nat)) (fired : List Nat) (x : Nat)
    (hx : x ∈ fired) : List.count x (runMilestones steps fired) = 0 := by
  induction steps generalizing fired with
  | nil => simp [runMilestones]
  | cons step rest ih =>
    show List.count x ((milestoneStep fired step.1 step.2).1 ++
      runMilestones rest (milestoneStep fired step.1 step.2).2) = 0
    rw [List.count_append]
    unfold milestoneStep
    by_cases h0 : step.2 = 0
    · rw [if_pos h0]
      simpa using ih fired hx
    · rw [if_neg h0]
      have h1 : List.count x (fireLoop (completionPct step.1 step.2)
          MILESTONE_THRESHOLDS fired).1 = 0 :=
        List.count_eq_zero.mpr (fun hmem =>
          (fireLoop_fires_fresh _ _ _ x hmem).1 hx)
      have h2 := ih _ (fireLoop_fired_mono (completionPct step.1 step.2)
        MILESTONE_THRESHOLDS fired x hx)
      rw [h1, h2]

/-- Each threshold fires at most once over a whole run. -/
theorem runMilestones_count_le_one (steps : List (Nat × Nat)) (fired : List Nat) (x : Nat) :
    List.count x (runMilestones steps fired) ≤ 1 := by
  induction steps generalizing fired with
  | nil => simp [runMilestones]
  | cons step rest ih =>
    show List.count x ((milestoneStep fired step.1 step.2).1 ++
      runMilestones rest (milestoneStep fired step.1 step.2).2) ≤ 1
    rw [List.count_append]
    unfold milestoneStep
    by_cases h0 : step.2 = 0
    · rw [if_pos h0]
      simpa using ih fired
    · rw [if_neg h0]
      by_cases hmem : x ∈ (fireLoop (completionPct step.1 step.2)
          MILESTONE_THRESHOLDS fired).1
      · have hc1 := fireLoop_count_le_one (completionPct step.1 step.2)
          MILESTONE_THRESHOLDS fired x
        have hc2 : List.count x (runMilestones rest (fireLoop (completionPct step.1 step.2)
            MILESTONE_THRESHOLDS fired).2) = 0 :=
          runMilestones_not_refired rest _ x (fireLoop_fires_fresh _ _ _ x hmem).2
        omega
      · have hc1 : List.count x (fireLoop (completionPct step.1 step.2)
            MILESTONE_THRESHOLDS fired).1 = 0 := List.count_eq_zero.mpr hmem
        have hc2 := ih (fireLoop (completionPct step.1 step.2) MILESTONE_THRESHOLDS fired).2
        omega

/-- Concrete seeding example: 4 tasks with 1 completed before the run seeds
exactly the 25% threshold. -/
theorem seedMilestones_example : seedMilestones 1 4 = [25] := by
  have h : completionPct 1 4 = 25 := by
    unfold completionPct jsRound
    norm_num
  unfold seedMilestones
  rw [if_neg (by norm_num : (4 : Nat) ≠ 0)]
  rw [MILESTONE_THRESHOLDS]
  simp only [h]
  decide

/-- Concrete firing example: completing the second of 4 tasks after the 25%
seed fires exactly the 50% milestone. -/
theorem milestoneStep_example :
    milestoneStep (seedMilestones 1 4) 2 4 = ([50], [25, 50]) := by
  have h : completionPct 2 4 = 50 := by
    unfold completionPct jsRound
    norm_num
  rw [seedMilestones_example]
  unfold milestoneStep
  rw [if_neg (by norm_num : (4 : Nat) ≠ 0)]
  rw [h]
  decide

/-- C3: milestone thresholds fire at most once per run for any starting fired
set; the fired set is seeded at run start with exactly the thresholds already
reached by the pre-run completion percentage; a threshold in the fired set
(in particular a seeded one) is never re-fired during the run; and in the
concrete resumed-run example — 4 tasks with 1 already completed at run start —
the seed is the 25% milestone alone and completing the second task fires
exactly the 50% milestone. -/
theorem milestones_claim (steps : List (Nat × Nat)) (fired : List Nat)
    (completedCount total th : Nat) :
    (th ∈ seedMilestones completedCount total ↔
      total ≠ 0 ∧ th ∈ MILESTONE_THRESHOLDS ∧
        (th : ℤ) ≤ completionPct completedCount total) ∧
    List.count th (runMilestones steps fired) ≤ 1 ∧
    (th ∈ fired → List.count th (runMilestones steps fired) = 0) ∧
    seedMilestones 1 4 = [25] ∧
    milestoneStep (seedMilestones 1 4) 2 4 = ([50], [25, 50]) := by
  refine ⟨?_, runMilestones_count_le_one steps fired th,
    runMilestones_not_refired steps fired th, seedMilestones_example, milestoneStep_example⟩
  unfold seedMilestones
  by_cases h0 : total = 0
  · rw [if_pos h0]
    simp [h0]
  · rw [if_neg h0]
    simp [List.mem_filter, h0, and_comm]

/-! ### Workstream error counting (`specialists.ts`) -/

/-- Keep the first occurrence of each string, as iteration over a JavaScript
`Set` built by insertion does. -/
def dedupFirstAux (seen : List String) : List String → List String
  | [] => []
  | x :: xs => if x ∈ seen then dedupFirstAux seen xs else x :: dedupFirstAux (x :: seen) xs

/-- Deduplicate a string list keeping first occurrences. -/
def dedupFirst (l : List String) : List String := dedupFirstAux [] l

/-- The derived query `countWorkstreamErrors` from `specialists.ts`: collect
the set of task ids with an `error` event for the workstream+plan, then walk
the entries again deleting from that set the id of every `completed` event for
the workstream+plan (the deletion pass does not look at event order), and
return the size of what remains. -/
def countWorkstreamErrors (entries : List HistoryEntry) (workstream planSlug : String) :
    Nat :=
  let erroredIds := dedupFirst ((entries.filter (fun e =>
    decide (e.event = HistoryEvent.error) && decide (e.workstream = workstream) &&
      decide (e.plan_slug = planSlug))).map (fun e => e.task_id))
  (erroredIds.filter (fun id => !(entries.any (fun e =>
    decide (e.event = HistoryEvent.completed) && decide (e.workstream = workstream) &&
      decide (e.plan_slug = planSlug) && decide (e.task_id = id))))).length

/-- Whether some entry after the given position completes the task in the
workstream+plan. -/
def laterCompletes (rest : List HistoryEntry) (taskId workstream planSlug : String) : Bool :=
  rest.any fun e =>
    decide (e.event = HistoryEvent.completed) && decide (e.task_id = taskId) &&
      decide (e.workstream = workstream) && decide (e.plan_slug = planSlug)

/-- Modelled from the spec: whether the ledger holds an `error` event for the
task+workstream+plan that is not followed by a later `completed` event for the
same task+workstream+plan. -/
def hasCurrentError (taskId workstream planSlug : String) : List HistoryEntry → Bool
  | [] => false
  | e :: rest =>
    (decide (e.event = HistoryEvent.error) && decide (e.task_id = taskId) &&
        decide (e.workstream = workstream) && decide (e.plan_slug = planSlug) &&
        !laterCompletes rest taskId workstream planSlug)
      || hasCurrentError taskId workstream planSlug rest

/-- Modelled from the spec: the number of distinct task ids that are currently
failing in the workstream+plan, i.e. have an `error` event not followed by a
later `completed` event for the same task+workstream+plan. -/
def currentlyErroredCount (entries : List HistoryEntry) (workstream planSlug : String) :
    Nat :=
  (dedupFirst ((entries.filter (fun e =>
    decide (e.event = HistoryEvent.error) && decide (e.workstream = workstream) &&
      decide (e.plan_slug = planSlug))).map (fun e => e.task_id))).filter
    (fun id => hasCurrentError id workstream planSlug entries) |>.length

/-- Completed event for task T1 in workstream A of plan p. -/
def ledgerCompletedT1 : HistoryEntry :=
  { timestamp := "t1", event := HistoryEvent.completed, task_id := "T1",
    plan_slug := "p", specialist := none, status := HistoryEvent.completed,
    duration_ms := some 5, resets := 0, files := [], workstream := "A", title := "x" }

/-- Reset event for task T1 (operator recovery after its completion was stale). -/
def ledgerResetT1 : HistoryEntry :=
  { timestamp := "t2", event := HistoryEvent.reset, task_id := "T1",
    plan_slug := "p", specialist := none, status := HistoryEvent.reset,
    duration_ms := none, resets := 1, files := [], workstream := "A", title := "x" }

/-- Error event for task T1, later than its completed event. -/
def ledgerErrorT1 : HistoryEntry :=
  { timestamp := "t3", event := HistoryEvent.error, task_id := "T1",
    plan_slug := "p", specialist := none, status := HistoryEvent.error,
    duration_ms := some 5, resets := 1, files := [], workstream := "A", title := "x" }

/-- Ledger where T1 completed, was reset, and then errored: T1 is currently
failing, yet its old completed event remains in the log. -/
def staleCompletionLedger : List HistoryEntry :=
  [ledgerCompletedT1, ledgerResetT1, ledgerErrorT1]

/-- C5 (code bug): on a ledger where a task completed, was reset and then
errored, `countWorkstreamErrors` returns 0 — the deletion pass removes the
task because of the stale earlier `completed` event — while the documented
count of error events not followed by a later completed event is 1. -/
theorem countWorkstreamErrors_stale_completion :
    countWorkstreamErrors staleCompletionLedger "A" "p" = 0 ∧
      currentlyErroredCount staleCompletionLedger "A" "p" = 1 := by
  constructor <;> rfl

/-! ### Task features and the specialist model (`specialists.ts`) -/

/-- JavaScript word character, the `\w` class: letters, digits, underscore. -/
def isWordChar (c : Char) : Bool := c.isAlphanum || c == '_'

/-- ASCII lowercasing, `String.toLowerCase` on the identifiers and prose this
program handles. -/
def lowerStr (s : String) : String := String.mk (s.data.map Char.toLower)

/-- Maximal runs of word characters, accumulating the current run reversed:
the splitter behind `split(/\W+/)` once empty fragments are discarded by the
length filters that always follow it in the source. -/
def wordRunsAux : List Char → List Char → List String
  | [], acc => if acc.isEmpty then [] else [String.mk acc.reverse]
  | c :: cs, acc =>
    if isWordChar c then wordRunsAux cs (c :: acc)
    else if acc.isEmpty then wordRunsAux cs [] else String.mk acc.reverse :: wordRunsAux cs []

/-- Lowercase a string and split it into word-character runs, as
`.toLowerCase().split(/\W+/)` does in the source (modulo empty fragments,
which every use site filters away by word length). -/
def jsWords (s : String) : List String := wordRunsAux (lowerStr s).data []

/-- The `STOP_WORDS` set from `specialists.ts`. -/
def STOP_WORDS : List String :=
  ["this", "that", "with", "from", "have", "will", "should", "would",
   "could", "into", "been", "also", "then", "than", "when", "where",
   "which", "what", "there", "their", "about", "each", "other",
   "them", "these", "those", "some", "more", "most", "only",
   "very", "just", "make", "like", "well", "back", "even", "still",
   "after", "before", "does", "done", "such", "much"]

/-- Index of the last dot in a character list, if any. -/
def lastDotIdxAux : List Char → Nat → Option Nat → Option Nat
  | [], _, best => best
  | c :: cs, i, best => lastDotIdxAux cs (i + 1) (if c = '.' then some i else best)

/-- Node `path.extname`: the basename's suffix from its last dot, or the
empty string when there is no dot or the dot leads the basename. -/
def jextname (file : String) : String :=
  let base := (file.splitOn "/").getLastD ""
  match lastDotIdxAux base.data 0 none with
  | none => ""
  | some 0 => ""
  | some i => String.mk (base.data.drop i)

/-- Features extracted from a task for matching (`TaskFeatures` in
`specialists.ts`). -/
structure TaskFeatures where
  extensions : List String
  keywords : List String
  complexity : Nat
  workstream : String
deriving DecidableEq, Repr

/-- One recorded task-specialist pairing (`ModelEntry` in `specialists.ts`). -/
structure ModelEntry where
  specialist : String
  features : TaskFeatures
  success : Bool
  timestamp : String
deriving DecidableEq, Repr

/-- The persisted specialist model (`SpecialistModel` in `specialists.ts`).
The values threaded here stand for the parsed `.bart/specialist-model.json`;
the `saveSpecialistModel` file write is plumbing around them. -/
structure SpecialistModel where
  version : Nat
  entries : List ModelEntry
deriving DecidableEq, Repr

/-- `MIN_SAMPLES_FOR_TRUST` from `specialists.ts`. -/
def MIN_SAMPLES_FOR_TRUST : Nat := 5

/-- `extractTaskFeatures` from `specialists.ts`: the set of nonempty file
extensions, the significant lowercased keywords of title+description (length
above 3, stop words removed, deduplicated), the file count as complexity, and
the workstream. -/
def extractTaskFeatures (t : Task) : TaskFeatures :=
  { extensions := dedupFirst ((t.files.map jextname).filter (fun e => decide (e ≠ ""))),
    keywords := dedupFirst ((jsWords (t.title ++ " " ++ t.description)).filter
      (fun w => decide (3 < w.length) && !(STOP_WORDS.contains w))),
    complexity := t.files.length,
    workstream := t.workstream }

/-- `recordPairing` from `specialists.ts`: when the task has a (truthy)
specialist, append one entry with its features, the outcome and the current
time to the model; otherwise return at once.  Persisting the updated model to
disk is file plumbing outside the embedding. -/
def recordPairing (model : SpecialistModel) (t : Task) (success : Bool) (nowTs : String) :
    SpecialistModel :=
  match t.specialist with
  | none => model
  | some s =>
    if s = "" then model
    else { model with
        entries := model.entries ++
          [{ specialist := s, features := extractTaskFeatures t,
             success := success, timestamp := nowTs }] }

/-- Number of distinct strings of `xs` also occurring in `ys`, the JavaScript
set-intersection count in `featureSimilarity`. -/
def overlapCount (xs ys : List String) : Nat :=
  ((dedupFirst xs).filter (fun x => ys.contains x)).length

/-- Number of distinct strings of `xs ++ ys`, the JavaScript set-union size. -/
def unionCount (xs ys : List String) : Nat := (dedupFirst (xs ++ ys)).length

/-- Jaccard ratio with the source guard `union > 0 ? intersection / union : 0`. -/
def jaccardQ (xs ys : List String) : ℚ :=
  if 0 < unionCount xs ys then (overlapCount xs ys : ℚ) / (unionCount xs ys : ℚ) else 0

/-- `featureSimilarity` from `specialists.ts`: accumulate the extension
Jaccard term only when either extension set is nonempty, the keyword Jaccard
term only when either keyword set is nonempty, and always the complexity
proximity term, then divide by the number of accumulated factors. -/
def featureSimilarity (a b : TaskFeatures) : ℚ :=
  let extApp : Bool := !a.extensions.isEmpty || !b.extensions.isEmpty
  let kwApp : Bool := !a.keywords.isEmpty || !b.keywords.isEmpty
  let extTerm : ℚ := if extApp then jaccardQ a.extensions b.extensions else 0
  let kwTerm : ℚ := if kwApp then jaccardQ a.keywords b.keywords else 0
  let maxComplexity : ℚ := max (max (a.complexity : ℚ) (b.complexity : ℚ)) 1
  let complexityDiff : ℚ := |(a.complexity : ℚ) - (b.complexity : ℚ)|
  let score : ℚ := extTerm + kwTerm + (1 - complexityDiff / maxComplexity)
  let factors : ℚ := (if extApp then 1 else 0) + (if kwApp then 1 else 0) + 1
  if 0 < factors then score / factors else 0

/-- `modelConfidence` from `specialists.ts`: `none` below
`MIN_SAMPLES_FOR_TRUST` entries for the specialist, else 40% global success
rate plus 60% similarity-weighted success rate (weights accumulated in one
pass as in the source), falling back to the global rate at zero total weight.
The human-readable rationale string of the source is display plumbing; the
result is modelled as the (confidence, sampleCount) pair. -/
def modelConfidence (model : SpecialistModel) (name : String) (tf : TaskFeatures) :
    Option (ℚ × Nat) :=
  let entries := model.entries.filter (fun e => decide (e.specialist = name))
  if entries.length < MIN_SAMPLES_FOR_TRUST then none
  else
    let successRate : ℚ :=
      ((entries.filter (fun e => e.success)).length : ℚ) / (entries.length : ℚ)
    let acc := entries.foldl (fun (acc : ℚ × ℚ) e =>
      (acc.1 + featureSimilarity tf e.features * (if e.success then 1 else 0),
        acc.2 + featureSimilarity tf e.features)) (0, 0)
    let weightedRate : ℚ := if 0 < acc.2 then acc.1 / acc.2 else successRate
    some (2/5 * successRate + 3/5 * weightedRate, entries.length)

/-- Modelled from the spec (amended form): the confidence restated with the
weighted rate as a quotient of list sums instead of the source's accumulator
loop. -/
def claimedConfidence (model : SpecialistModel) (name : String) (tf : TaskFeatures) :
    Option (ℚ × Nat) :=
  let entries := model.entries.filter (fun e => decide (e.specialist = name))
  if entries.length < 5 then none
  else
    let globalRate : ℚ :=
      ((entries.filter (fun e => e.success)).length : ℚ) / (entries.length : ℚ)
    let totalWeight : ℚ := (entries.map (fun e => featureSimilarity tf e.features)).sum
    let weightedSum : ℚ :=
      (entries.map (fun e => if e.success then featureSimilarity tf e.features else 0)).sum
    let weightedRate : ℚ := if 0 < totalWeight then weightedSum / totalWeight else globalRate
    some (2/5 * globalRate + 3/5 * weightedRate, entries.length)

/-- Modelled from the spec: similarity as the unconditional mean of the three
terms named by the spec, for every pair of feature vectors, with the Jaccard
ratio of two empty sets read as 0. -/
def claimedFeatureSimilarity (a b : TaskFeatures) : ℚ :=
  (jaccardQ a.extensions b.extensions + jaccardQ a.keywords b.keywords +
    (1 - |(a.complexity : ℚ) - (b.complexity : ℚ)| /
      max (max (a.complexity : ℚ) (b.complexity : ℚ)) 1)) / 3

/-- Feature vector with no extensions, one keyword, one file. -/
def tfNoExtOne : TaskFeatures :=
  { extensions := [], keywords := ["alpha"], complexity := 1, workstream := "A" }

/-- Feature vector with no extensions, the same keyword, three files. -/
def tfNoExtThree : TaskFeatures :=
  { extensions := [], keywords := ["alpha"], complexity := 3, workstream := "A" }

/-- C7 counterexample: with both extension sets empty the source skips the
extension term and divides by 2, so the similarity is not the mean of the
three terms the claim prescribes for every pair of feature vectors (the code
yields 2/3 here while the claimed mean is 4/9, or 7/9 were the Jaccard ratio
of two empty sets read as 1 instead — unequal either way). -/
theorem featureSimilarity_not_mean_of_three :
    featureSimilarity tfNoExtOne tfNoExtThree ≠
      claimedFeatureSimilarity tfNoExtOne tfNoExtThree := by
  have ho : overlapCount ["alpha"] ["alpha"] = 1 := rfl
  have hu : unionCount ["alpha"] ["alpha"] = 1 := rfl
  have he : unionCount ([] : List String) [] = 0 := rfl
  have h1 : featureSimilarity tfNoExtOne tfNoExtThree = 2/3 := by
    simp only [featureSimilarity, jaccardQ, tfNoExtOne, tfNoExtThree, ho, hu, he]
    norm_num
  have h2 : claimedFeatureSimilarity tfNoExtOne tfNoExtThree = 4/9 := by
    simp only [claimedFeatureSimilarity, jaccardQ, tfNoExtOne, tfNoExtThree, ho, hu, he]
    norm_num
  rw [h1, h2]
  norm_num

/-- The confidence-accumulating fold of `modelConfidence` as a pair of mapped
sums. -/
theorem confidence_fold_eq (tf : TaskFeatures) (l : List ModelEntry) (a b : ℚ) :
    l.foldl (fun acc e =>
      (acc.1 + featureSimilarity tf e.features * (if e.success then 1 else 0),
        acc.2 + featureSimilarity tf e.features)) (a, b) =
      (a + (l.map (fun e => if e.success then featureSimilarity tf e.features else 0)).sum,
        b + (l.map (fun e => featureSimilarity tf e.features)).sum) := by
  induction l generalizing a b with
  | nil => simp
  | cons x xs ih =>
    rw [List.foldl_cons, ih]
    by_cases hx : x.success <;>
      simp [hx, Prod.ext_iff, add_assoc, mul_one]

/-- C7 (amended): `modelConfidence` returns no result below 5 entries for the
candidate specialist and otherwise 0.4 times the global success rate plus 0.6
times the similarity-weighted success rate (falling back to the global rate
when the total similarity weight is 0); the similarity of two feature vectors
is the mean of the applicable terms — the extension (resp. keyword) Jaccard
term entering only when at least one of the two sets is nonempty, the
complexity proximity term always — the divisor being the number of terms
entered. -/
theorem modelConfidence_amended (model : SpecialistModel) (name : String)
    (tf a b : TaskFeatures) :
    modelConfidence model name tf = claimedConfidence model name tf ∧
      featureSimilarity a b =
        ((if a.extensions ≠ [] ∨ b.extensions ≠ [] then
            jaccardQ a.extensions b.extensions else 0) +
          (if a.keywords ≠ [] ∨ b.keywords ≠ [] then
            jaccardQ a.keywords b.keywords else 0) +
          (1 - |(a.complexity : ℚ) - (b.complexity : ℚ)| /
            max (max (a.complexity : ℚ) (b.complexity : ℚ)) 1)) /
        ((if a.extensions ≠ [] ∨ b.extensions ≠ [] then (1 : ℚ) else 0) +
          (if a.keywords ≠ [] ∨ b.keywords ≠ [] then (1 : ℚ) else 0) + 1) := by
  constructor
  · simp only [modelConfidence, claimedConfidence, MIN_SAMPLES_FOR_TRUST]
    split
    · rfl
    · rw [confidence_fold_eq]
      simp
  · by_cases hE : a.extensions ≠ [] ∨ b.extensions ≠ [] <;>
      by_cases hK : a.keywords ≠ [] ∨ b.keywords ≠ []
    · have hbE : (!a.extensions.isEmpty || !b.extensions.isEmpty) = true := by
        rcases hE with h | h <;> simp [List.isEmpty_iff, h]
      have hbK : (!a.keywords.isEmpty || !b.keywords.isEmpty) = true := by
        rcases hK with h | h <;> simp [List.isEmpty_iff, h]
      simp only [featureSimilarity, hbE, hbK, if_true, if_pos hE, if_pos hK]
      norm_num
    · have hbE : (!a.extensions.isEmpty || !b.extensions.isEmpty) = true := by
        rcases hE with h | h <;> simp [List.isEmpty_iff, h]
      have hbK : (!a.keywords.isEmpty || !b.keywords.isEmpty) = false := by
        push_neg at hK
        simp [List.isEmpty_iff, hK.1, hK.2]
      simp only [featureSimilarity, hbE, hbK, if_pos hE, if_neg hK]
      norm_num
    · have hbE : (!a.extensions.isEmpty || !b.extensions.isEmpty) = false := by
        push_neg at hE
        simp [List.isEmpty_iff, hE.1, hE.2]
      have hbK : (!a.keywords.isEmpty || !b.keywords.isEmpty) = true := by
        rcases hK with h | h <;> simp [List.isEmpty_iff, h]
      simp only [featureSimilarity, hbE, hbK, if_neg hE, if_pos hK]
      norm_num
    · have hbE : (!a.extensions.isEmpty || !b.extensions.isEmpty) = false := by
        push_neg at hE
        simp [List.isEmpty_iff, hE.1, hE.2]
      have hbK : (!a.keywords.isEmpty || !b.keywords.isEmpty) = false := by
        push_neg at hK
        simp [List.isEmpty_iff, hK.1, hK.2]
      simp only [featureSimilarity, hbE, hbK, if_neg hE, if_neg hK]
      norm_num

/-- Task with a terminal outcome but no assigned specialist. -/
def unassignedTask : Task :=
  { id := "T", workstream := "A", title := "t", description := "", files := [],
    depends_on := [], status := TaskStatus.error }

/-- Empty persisted specialist model. -/
def emptyModel : SpecialistModel := { version := 1, entries := [] }

/-- C8 counterexample: after the terminal outcome of a task without an
assigned specialist, `recordPairing` appends nothing — not exactly one entry. -/
theorem recordPairing_skips_unassigned :
    ¬ ((recordPairing emptyModel unassignedTask false "ts").entries.length =
      emptyModel.entries.length + 1) := by
  decide

/-- C8 (amended): after a terminal outcome, `recordPairing` appends exactly
one (specialist, features, success, timestamp) entry when the task has a
nonempty assigned specialist, and appends nothing otherwise; in both cases the
prior entries survive unchanged as a prefix (the model only grows, and
`recordPairing` is its only mutation in this core). -/
theorem recordPairing_amended (model : SpecialistModel) (t : Task) (success : Bool)
    (nowTs : String) :
    ((t.specialist = none ∨ t.specialist = some "") →
      recordPairing model t success nowTs = model) ∧
    (∀ s, t.specialist = some s → s ≠ "" →
      (recordPairing model t success nowTs).entries = model.entries ++
        [{ specialist := s, features := extractTaskFeatures t,
           success := success, timestamp := nowTs }]) ∧
    (∃ rest, (recordPairing model t success nowTs).entries = model.entries ++ rest) ∧
    (recordPairing model t success nowTs).version = model.version := by
  cases hs : t.specialist with
  | none =>
    refine ⟨fun _ => by simp [recordPairing, hs], ?_,
      ⟨[], by simp [recordPairing, hs]⟩, by simp [recordPairing, hs]⟩
    intro s hsome
    exact absurd hsome (by simp)
  | some s =>
    by_cases hempty : s = ""
    · subst hempty
      refine ⟨fun _ => by simp [recordPairing, hs], ?_,
        ⟨[], by simp [recordPairing, hs]⟩, by simp [recordPairing, hs]⟩
      intro s₂ hsome hne
      have hse : s₂ = "" := by
        simpa using hsome.symm
      exact absurd hse hne
    · refine ⟨?_, ?_, ?_, by simp [recordPairing, hs, hempty]⟩
      · intro hcontra
        rcases hcontra with h | h
        · exact absurd h (by simp)
        · have hse : s = "" := by
            simpa using h
          exact absurd hse hempty
      · intro s₂ hsome hne
        have heq : s = s₂ := by
          simpa using hsome
        subst heq
        simp [recordPairing, hs, hempty]
      · exact ⟨[⟨s, extractTaskFeatures t, success, nowTs⟩],
          by simp [recordPairing, hs, hempty]⟩

/-! ### Specialist auto-matching (`specialists.ts`) -/

/-- Whether `needle` starts `hay`, character by character. -/
def leadsWith : List Char → List Char → Bool
  | [], _ => true
  | _ :: _, [] => false
  | a :: as, b :: bs => a == b && leadsWith as bs

/-- Whether `needle` occurs contiguously inside the second list: JavaScript
`String.includes` over character lists. -/
def hasSeq (needle : List Char) : List Char → Bool
  | [] => leadsWith needle []
  | c :: t => leadsWith needle (c :: t) || hasSeq needle t

/-- JavaScript `hay.includes(needle)` on strings. -/
def strIncludes (hay needle : String) : Bool := hasSeq needle.data hay.data

/-- First match of the regular expression `\[([^\]]+)\]`: scan left to right
for a `[` followed by at least one non-`]` character and a closing `]`, and
return the enclosed characters. -/
def extractTagAux : List Char → Option String
  | [] => none
  | c :: cs =>
    if c = '[' then
      (let content := cs.takeWhile (fun d => decide (d ≠ ']'))
       if content.isEmpty then extractTagAux cs
       else if (cs.drop content.length).head? = some ']' then some (String.mk content)
       else extractTagAux cs)
    else extractTagAux cs

/-- Bracketed tag in a task title, the `task.title.match(/\[([^\]]+)\]/)`
group of `matchSpecialist`. -/
def extractTag (title : String) : Option String := extractTagAux title.data

/-- The `extKeywords` table of `matchSpecialist` in `specialists.ts`. -/
def extKeywords : List (String × List String) :=
  [(".tsx", ["frontend", "react", "ui", "component", "view"]),
   (".jsx", ["frontend", "react", "ui", "component", "view"]),
   (".css", ["frontend", "style", "ui", "design"]),
   (".scss", ["frontend", "style", "ui", "design"]),
   (".sql", ["database", "query", "migration", "schema"]),
   (".prisma", ["database", "schema", "orm"]),
   (".test.ts", ["test", "testing", "spec"]),
   (".spec.ts", ["test", "testing", "spec"]),
   (".tf", ["infrastructure", "terraform", "deploy"]),
   (".yml", ["config", "ci", "deploy", "pipeline"]),
   (".yaml", ["config", "ci", "deploy", "pipeline"]),
   (".dockerfile", ["docker", "container", "deploy"])]

/-- The file-keyword set of `matchSpecialist`: for each task file, the
keywords of every table suffix it ends with, deduplicated in insertion
order. -/
def fileKeywordsOf (files : List String) : List String :=
  dedupFirst ((files.map (fun f =>
    (extKeywords.map (fun p => if f.endsWith p.1 then p.2 else [])).flatten)).flatten)

/-- Extension-path score of one specialist: how many of the file keywords
occur in its lowercased description. -/
def extFileScore (fileKeywords : List String) (s : Specialist) : Nat :=
  (fileKeywords.filter (fun k => strIncludes (lowerStr s.description) k)).length

/-- Task words for the keyword path: lowercased title+description split on
non-word characters, keeping words longer than 3 (duplicates kept, no
stop-word removal — unlike `extractTaskFeatures`). -/
def taskWordsOf (t : Task) : List String :=
  (jsWords (t.title ++ " " ++ t.description)).filter (fun w => decide (3 < w.length))

/-- Specialist description words for the keyword path. -/
def descWordsOf (s : Specialist) : List String :=
  (jsWords s.description).filter (fun w => decide (3 < w.length))

/-- Keyword-path score: occurrences (with multiplicity) of task words among
the specialist's description words. -/
def kwScore (taskWords : List String) (s : Specialist) : Nat :=
  (taskWords.filter (fun w => (descWordsOf s).contains w)).length

/-- The best-tracking loop of the heuristic paths: fold keeping the first
specialist with the strictly highest score, starting from no match and 0. -/
def bestScored (score : Specialist → Nat) (sps : List Specialist) :
    Option Specialist × Nat :=
  sps.foldl (fun acc s => if score s > acc.2 then (some s, score s) else acc) (none, 0)

/-- The best-tracking loop of the learned-model path, skipping specialists
for which `modelConfidence` yields nothing. -/
def bestModel (conf : Specialist → Option ℚ) (sps : List Specialist) :
    Option Specialist × ℚ :=
  sps.foldl (fun acc s =>
    match conf s with
    | some c => if c > acc.2 then (some s, c) else acc
    | none => acc) (none, 0)

/-- `AUTO_MATCH_CONFIDENCE_THRESHOLD` from `specialists.ts`. -/
def AUTO_MATCH_CONFIDENCE_THRESHOLD : Nat := 80

/-- Step 1 of `matchSpecialist`: a bracketed title tag equal (lowercased) to
a known specialist name. -/
def tagMatchOf (t : Task) (specialists : List Specialist) : Option Specialist :=
  match extractTag t.title with
  | some tag => specialists.find? (fun s => decide (lowerStr s.name = lowerStr tag))
  | none => none

/-- The learned-model best match and confidence for a task. -/
def modelBest (t : Task) (m : SpecialistModel) (sps : List Specialist) :
    Option Specialist × ℚ :=
  bestModel (fun s => (modelConfidence m s.name (extractTaskFeatures t)).map Prod.fst) sps

/-- Step 2 of `matchSpecialist`: the learned-model match, consulted only when
the whole model holds at least `MIN_SAMPLES_FOR_TRUST` entries, accepted only
when the best confidence times 100 reaches the threshold. -/
def modelMatchOf (t : Task) (specialists : List Specialist)
    (model : Option SpecialistModel) : Option Specialist :=
  match model with
  | none => none
  | some m =>
    if MIN_SAMPLES_FOR_TRUST ≤ m.entries.length then
      match (modelBest t m specialists).1 with
      | some s =>
        if (AUTO_MATCH_CONFIDENCE_THRESHOLD : ℚ) ≤ (modelBest t m specialists).2 * 100
        then some s else none
      | none => none
    else none

/-- The extension-path best match and score for a task. -/
def extBest (t : Task) (sps : List Specialist) : Option Specialist × Nat :=
  bestScored (extFileScore (fileKeywordsOf t.files)) sps

/-- Step 3 of `matchSpecialist`: the file-extension heuristic, requiring a
nonempty keyword set, a best score of at least 2, and a rounded match ratio
reaching the threshold. -/
def extMatchOf (t : Task) (specialists : List Specialist) : Option Specialist :=
  if 0 < (fileKeywordsOf t.files).length then
    match (extBest t specialists).1 with
    | some s =>
      if 2 ≤ (extBest t specialists).2 then
        if (AUTO_MATCH_CONFIDENCE_THRESHOLD : ℤ) ≤
            jsRound (((extBest t specialists).2 * 100 : ℚ) /
              ((fileKeywordsOf t.files).length : ℚ))
        then some s else none
      else none
    | none => none
  else none

/-- The keyword-path best match and score for a task. -/
def kwBest (t : Task) (sps : List Specialist) : Option Specialist × Nat :=
  bestScored (kwScore (taskWordsOf t)) sps

/-- Step 4 of `matchSpecialist`: keyword overlap, requiring a best score of at
least 2 and a rounded overlap ratio reaching the threshold (the ratio read as
0 when the task has no significant words). -/
def kwMatchOf (t : Task) (specialists : List Specialist) : Option Specialist :=
  match (kwBest t specialists).1 with
  | some s =>
    if 2 ≤ (kwBest t specialists).2 then
      if (AUTO_MATCH_CONFIDENCE_THRESHOLD : ℤ) ≤
          (if 0 < (taskWordsOf t).length then
            jsRound (((kwBest t specialists).2 * 100 : ℚ) / ((taskWordsOf t).length : ℚ))
          else 0)
      then some s else none
    else none
  | none => none

/-- `matchSpecialist` from `specialists.ts`: the four-step precedence ladder —
explicit tag, learned model, file-extension heuristic, keyword overlap — with
no specialist assigned when every step declines. -/
def matchSpecialist (t : Task) (specialists : List Specialist)
    (model : Option SpecialistModel) : Option Specialist :=
  if specialists.isEmpty then none
  else
    match tagMatchOf t specialists with
    | some s => some s
    | none =>
      match modelMatchOf t specialists model with
      | some s => some s
      | none =>
        match extMatchOf t specialists with
        | some s => some s
        | none => kwMatchOf t specialists

/-- The specialist held by the `bestScored` fold achieves the held score. -/
theorem bestScored_achieves_aux (score : Specialist → Nat) (sps : List Specialist) :
    ∀ acc : Option Specialist × Nat, (∀ x, acc.1 = some x → score x = acc.2) →
      ∀ x, (sps.foldl (fun acc s =>
          if score s > acc.2 then (some s, score s) else acc) acc).1 = some x →
        score x = (sps.foldl (fun acc s =>
          if score s > acc.2 then (some s, score s) else acc) acc).2 := by
  induction sps with
  | nil => exact fun acc hacc x hx => hacc x hx
  | cons a as ih =>
    intro acc hacc x hx
    rw [List.foldl_cons] at hx
    rw [List.foldl_cons]
    refine ih _ ?_ x hx
    intro y hy
    by_cases hgt : score a > acc.2
    · rw [if_pos hgt] at hy ⊢
      obtain rfl : a = y := by simpa using hy
      rfl
    · rw [if_neg hgt] at hy ⊢
      exact hacc y hy

/-- Specialization of `bestScored_achieves_aux` to the starting accumulator. -/
theorem bestScored_achieves (score : Specialist → Nat) (sps : List Specialist)
    (s : Specialist) (h : (bestScored score sps).1 = some s) :
    score s = (bestScored score sps).2 :=
  bestScored_achieves_aux score sps (none, 0) (by simp) s h

/-- The specialist held by the `bestModel` fold has the held confidence. -/
theorem bestModel_achieves_aux (conf : Specialist → Option ℚ) (sps : List Specialist) :
    ∀ acc : Option Specialist × ℚ, (∀ x, acc.1 = some x → conf x = some acc.2) →
      ∀ x, (sps.foldl (fun acc s =>
          match conf s with
          | some c => if c > acc.2 then (some s, c) else acc
          | none => acc) acc).1 = some x →
        conf x = some (sps.foldl (fun acc s =>
          match conf s with
          | some c => if c > acc.2 then (some s, c) else acc
          | none => acc) acc).2 := by
  induction sps with
  | nil => exact fun acc hacc x hx => hacc x hx
  | cons a as ih =>
    intro acc hacc x hx
    rw [List.foldl_cons] at hx
    rw [List.foldl_cons]
    refine ih _ ?_ x hx
    intro y hy
    cases hconf : conf a with
    | none =>
      simp only [hconf] at hy ⊢
      exact hacc y hy
    | some c =>
      simp only [hconf] at hy ⊢
      by_cases hgt : c > acc.2
      · rw [if_pos hgt] at hy ⊢
        obtain rfl : a = y := by simpa using hy
        exact hconf
      · rw [if_neg hgt] at hy ⊢
        exact hacc y hy

/-- Specialization of `bestModel_achieves_aux` to the starting accumulator. -/
theorem bestModel_achieves (conf : Specialist → Option ℚ) (sps : List Specialist)
    (s : Specialist) (h : (bestModel conf sps).1 = some s) :
    conf s = some (bestModel conf sps).2 :=
  bestModel_achieves_aux conf sps (none, 0) (by simp) s h

/-- A tag match carries a bracketed tag whose lowercasing is the returned
specialist's lowercased name. -/
theorem tagMatchOf_some (t : Task) (sps : List Specialist) (s : Specialist)
    (h : tagMatchOf t sps = some s) :
    ∃ tag, extractTag t.title = some tag ∧ lowerStr s.name = lowerStr tag := by
  unfold tagMatchOf at h
  cases he : extractTag t.title with
  | none => rw [he] at h; exact absurd h (by simp)
  | some tag =>
    rw [he] at h
    exact ⟨tag, rfl, by simpa using List.find?_some h⟩

/-- A learned-model match has model confidence reaching the threshold. -/
theorem modelMatchOf_some (t : Task) (sps : List Specialist)
    (model : Option SpecialistModel) (s : Specialist)
    (h : modelMatchOf t sps model = some s) :
    ∃ m c n, model = some m ∧
      modelConfidence m s.name (extractTaskFeatures t) = some (c, n) ∧
      (AUTO_MATCH_CONFIDENCE_THRESHOLD : ℚ) ≤ c * 100 := by
  unfold modelMatchOf at h
  cases model with
  | none => exact absurd h (by simp)
  | some m =>
    simp only at h
    by_cases hlen : MIN_SAMPLES_FOR_TRUST ≤ m.entries.length
    · rw [if_pos hlen] at h
      cases hbest : (modelBest t m sps).1 with
      | none => rw [hbest] at h; exact absurd h (by simp)
      | some s₀ =>
        rw [hbest] at h
        simp only [] at h
        by_cases hth : (AUTO_MATCH_CONFIDENCE_THRESHOLD : ℚ) ≤ (modelBest t m sps).2 * 100
        · rw [if_pos hth] at h
          obtain rfl : s₀ = s := by simpa using h
          have hconf := bestModel_achieves _ sps s₀ hbest
          rcases Option.map_eq_some'.mp hconf with ⟨⟨c, n⟩, hmc, hfst⟩
          refine ⟨m, c, n, rfl, hmc, ?_⟩
          have hc : c = (modelBest t m sps).2 := by
            simpa using hfst
          rw [hc]
          exact hth
        · rw [if_neg hth] at h
          exact absurd h (by simp)
    · rw [if_neg hlen] at h
      exact absurd h (by simp)

/-- An extension-heuristic match scores at least 2 and its rounded ratio
reaches the threshold. -/
theorem extMatchOf_some (t : Task) (sps : List Specialist) (s : Specialist)
    (h : extMatchOf t sps = some s) :
    2 ≤ extFileScore (fileKeywordsOf t.files) s ∧
      (AUTO_MATCH_CONFIDENCE_THRESHOLD : ℤ) ≤
        jsRound ((extFileScore (fileKeywordsOf t.files) s * 100 : ℚ) /
          ((fileKeywordsOf t.files).length : ℚ)) := by
  unfold extMatchOf at h
  by_cases hfk : 0 < (fileKeywordsOf t.files).length
  · rw [if_pos hfk] at h
    cases hbest : (extBest t sps).1 with
    | none => rw [hbest] at h; exact absurd h (by simp)
    | some s₀ =>
      rw [hbest] at h
      simp only [] at h
      by_cases h2 : 2 ≤ (extBest t sps).2
      · rw [if_pos h2] at h
        by_cases hth : (AUTO_MATCH_CONFIDENCE_THRESHOLD : ℤ) ≤
            jsRound (((extBest t sps).2 * 100 : ℚ) / ((fileKeywordsOf t.files).length : ℚ))
        · rw [if_pos hth] at h
          obtain rfl : s₀ = s := by simpa using h
          have hsc := bestScored_achieves _ sps s₀ hbest
          constructor
          · rw [hsc]; exact h2
          · rw [hsc]; exact hth
        · rw [if_neg hth] at h
          exact absurd h (by simp)
      · rw [if_neg h2] at h
        exact absurd h (by simp)
  · rw [if_neg hfk] at h
    exact absurd h (by simp)

/-- A keyword-overlap match scores at least 2 and its rounded ratio reaches
the threshold. -/
theorem kwMatchOf_some (t : Task) (sps : List Specialist) (s : Specialist)
    (h : kwMatchOf t sps = some s) :
    2 ≤ kwScore (taskWordsOf t) s ∧
      (AUTO_MATCH_CONFIDENCE_THRESHOLD : ℤ) ≤
        jsRound ((kwScore (taskWordsOf t) s * 100 : ℚ) / ((taskWordsOf t).length : ℚ)) := by
  unfold kwMatchOf at h
  cases hbest : (kwBest t sps).1 with
  | none => rw [hbest] at h; exact absurd h (by simp)
  | some s₀ =>
    rw [hbest] at h
    simp only [] at h
    by_cases h2 : 2 ≤ (kwBest t sps).2
    · rw [if_pos h2] at h
      by_cases hth : (AUTO_MATCH_CONFIDENCE_THRESHOLD : ℤ) ≤
          (if 0 < (taskWordsOf t).length then
            jsRound (((kwBest t sps).2 * 100 : ℚ) / ((taskWordsOf t).length : ℚ))
          else 0)
      · rw [if_pos hth] at h
        obtain rfl : s₀ = s := by simpa using h
        have hsc := bestScored_achieves _ sps s₀ hbest
        by_cases hlen : 0 < (taskWordsOf t).length
        · rw [if_pos hlen] at hth
          exact ⟨hsc ▸ h2, hsc ▸ hth⟩
        · rw [if_neg hlen] at hth
          exact absurd hth (by norm_num [AUTO_MATCH_CONFIDENCE_THRESHOLD])
      · rw [if_neg hth] at h
        exact absurd h (by simp)
    · rw [if_neg h2] at h
      exact absurd h (by simp)

/-- C6: whenever `matchSpecialist` assigns a specialist, either an explicit
bracketed title tag names it (always accepted), or the specialist's own
computed confidence or match ratio on the path that selected it reaches the
80% auto-match threshold: model confidence times 100 at least 80, or a rounded
file-extension match ratio at least 80 with score at least 2, or a rounded
keyword-overlap ratio at least 80 with score at least 2.  A specialist below
the threshold on the path that would select it is never returned. -/
theorem matchSpecialist_threshold (t : Task) (specialists : List Specialist)
    (model : Option SpecialistModel) (s : Specialist)
    (h : matchSpecialist t specialists model = some s) :
    (∃ tag, extractTag t.title = some tag ∧ lowerStr s.name = lowerStr tag) ∨
    (∃ m c n, model = some m ∧
      modelConfidence m s.name (extractTaskFeatures t) = some (c, n) ∧
      (AUTO_MATCH_CONFIDENCE_THRESHOLD : ℚ) ≤ c * 100) ∨
    (2 ≤ extFileScore (fileKeywordsOf t.files) s ∧
      (AUTO_MATCH_CONFIDENCE_THRESHOLD : ℤ) ≤
        jsRound ((extFileScore (fileKeywordsOf t.files) s * 100 : ℚ) /
          ((fileKeywordsOf t.files).length : ℚ))) ∨
    (2 ≤ kwScore (taskWordsOf t) s ∧
      (AUTO_MATCH_CONFIDENCE_THRESHOLD : ℤ) ≤
        jsRound ((kwScore (taskWordsOf t) s * 100 : ℚ) / ((taskWordsOf t).length : ℚ))) := by
  unfold matchSpecialist at h
  by_cases hemp : specialists.isEmpty
  · rw [if_pos hemp] at h
    exact absurd h (by simp)
  · rw [if_neg hemp] at h
    cases h1 : tagMatchOf t specialists with
    | some s₁ =>
      rw [h1] at h
      obtain rfl : s₁ = s := by simpa using h
      exact Or.inl (tagMatchOf_some t specialists s₁ h1)
    | none =>
      rw [h1] at h
      simp only [] at h
      cases h2 : modelMatchOf t specialists model with
      | some s₂ =>
        rw [h2] at h
        obtain rfl : s₂ = s := by simpa using h
        exact Or.inr (Or.inl (modelMatchOf_some t specialists model s₂ h2))
      | none =>
        rw [h2] at h
        simp only [] at h
        cases h3 : extMatchOf t specialists with
        | some s₃ =>
          rw [h3] at h
          obtain rfl : s₃ = s := by simpa using h
          exact Or.inr (Or.inr (Or.inl (extMatchOf_some t specialists s₃ h3)))
        | none =>
          rw [h3] at h
          simp only [] at h
          exact Or.inr (Or.inr (Or.inr (kwMatchOf_some t specialists s h)))

/-- Specialist named alpha, used by the tag-match example. -/
def specAlpha : Specialist :=
  { name := "alpha", description := "frontend react ui component view design",
    type := SpecialistType.agent, path := "/alpha.md" }

/-- Task whose title carries an explicit [alpha] tag. -/
def taggedTask : Task :=
  { id := "T", workstream := "A", title := "Do [alpha] work", description := "",
    files := [], depends_on := [], status := TaskStatus.pending }

/-- Witness for C6 at a concrete tagged task and one-specialist list. -/
theorem matchSpecialist_threshold_witness :
    matchSpecialist taggedTask [specAlpha] none = some specAlpha ∧
      ((∃ tag, extractTag taggedTask.title = some tag ∧
          lowerStr specAlpha.name = lowerStr tag) ∨
        (∃ m c n, (none : Option SpecialistModel) = some m ∧
          modelConfidence m specAlpha.name (extractTaskFeatures taggedTask) = some (c, n) ∧
          (AUTO_MATCH_CONFIDENCE_THRESHOLD : ℚ) ≤ c * 100) ∨
        (2 ≤ extFileScore (fileKeywordsOf taggedTask.files) specAlpha ∧
          (AUTO_MATCH_CONFIDENCE_THRESHOLD : ℤ) ≤
            jsRound ((extFileScore (fileKeywordsOf taggedTask.files) specAlpha * 100 : ℚ) /
              ((fileKeywordsOf taggedTask.files).length : ℚ))) ∨
        (2 ≤ kwScore (taskWordsOf taggedTask) specAlpha ∧
          (AUTO_MATCH_CONFIDENCE_THRESHOLD : ℤ) ≤
            jsRound ((kwScore (taskWordsOf taggedTask) specAlpha * 100 : ℚ) /
              ((taskWordsOf taggedTask).length : ℚ)))) :=
  ⟨by decide, matchSpecialist_threshold taggedTask [specAlpha] none specAlpha (by decide)⟩

/-! ### Execution controller (`runAgent` and the unattended loop, cli entry
file).  Wall-clock reads are the `nowTs` timestamp and the `elapsed`
duration; the agent subprocess is the environment-supplied `exitCode`
(`none` standing for a null exit code); notifications are pure flags, with
only the distinct critical notification surfaced; the interactive
continue prompt is treated as the auto-continue configuration. -/

/-- State a controller process reads and writes: the task document, the
history ledger, the specialist model, and the fired-milestone set of the
current run. -/
structure RunState where
  data : TasksData
  history : List HistoryEntry
  model : SpecialistModel
  fired : List Nat
deriving DecidableEq, Repr

/-- How one `runAgent` call ends: return a continue flag to the loop, or
terminate the whole process with an exit code. -/
inductive RAOutcome where
  | ret (cont : Bool)
  | exitProc (code : Int)
deriving DecidableEq, Repr

/-- Result of one `runAgent` call: the state it leaves on disk, how it ends,
and whether a distinct critical notification was dispatched. -/
structure StepOut where
  state : RunState
  outcome : RAOutcome
  criticalSent : Bool
deriving DecidableEq, Repr

/-- Lookup of `tasks.find(t => t.id === taskId)`. -/
def findTaskById (tasks : List Task) (taskId : String) : Option Task :=
  tasks.find? (fun t => decide (t.id = taskId))

/-- JavaScript `exitCode || 1` for a nonzero-or-null exit code. -/
def jsExitOr1 : Option Int → Int
  | some c => if c = 0 then 1 else c
  | none => 1

/-- The error message recorded on the task, with a null exit code printed as
`null` by the template string. -/
def errMessage (exitCode : Option Int) : String :=
  "Agent exited with code " ++
    (match exitCode with
     | some c => toString c
     | none => "null")

/-- History entry appended on a nonzero agent exit, built from the errored
task as in `runAgent`. -/
def errorHistoryEntry (t : Task) (taskId planSlug nowTs : String) (elapsed : Int)
    (resets : Nat) : HistoryEntry :=
  { timestamp := nowTs, event := HistoryEvent.error, task_id := taskId,
    plan_slug := planSlug, specialist := jsSpecOrNull t.specialist,
    status := HistoryEvent.error, duration_ms := t.started_at.map (fun _ => elapsed),
    resets := resets, files := t.files, workstream := t.workstream, title := t.title }

/-- History entry appended on a zero agent exit, built from the completed
task as in `runAgent`. -/
def completedHistoryEntry (t : Task) (taskId planSlug nowTs : String) (elapsed : Int)
    (resets : Nat) : HistoryEntry :=
  { timestamp := nowTs, event := HistoryEvent.completed, task_id := taskId,
    plan_slug := planSlug, specialist := jsSpecOrNull t.specialist,
    status := HistoryEvent.completed, duration_ms := t.started_at.map (fun _ => elapsed),
    resets := resets, files := t.files, workstream := t.workstream, title := t.title }

/-- Update making a task `in_progress` with the given start time. -/
def markInProgress (nowTs : String) (u : Task) : Task :=
  { u with status := TaskStatus.in_progress, started_at := some nowTs }

/-- Update marking a task `error` with the exit message. -/
def markError (exitCode : Option Int) (u : Task) : Task :=
  { u with status := TaskStatus.error, error := some (errMessage exitCode) }

/-- Update marking a task `completed` with the given completion time. -/
def markCompleted (nowTs : String) (u : Task) : Task :=
  { u with status := TaskStatus.completed, completed_at := some nowTs }

/-- One `runAgent` call, from the task lookup to the terminal handling of the
agent's exit code: exit 1 when the task id is unknown; mark the task
`in_progress` with the start time and run the agent; on nonzero exit when not
shutting down, mark the task `error` with a message, append an `error` ledger
entry, record a failed pairing, decide escalation (same task failed 3 or more
times counting resets plus this error, or else 3 or more workstream errors on
the ledger just written), and exit the process with `exitCode || 1`; on
nonzero exit while shutting down, return false; on zero exit, mark the task
`completed`, append a `completed` entry, record a successful pairing, evaluate
milestones against the passed fired set, and return true. -/
def runAgentStep (st : RunState) (taskId planSlug nowTs : String) (elapsed : Int)
    (shuttingDown : Bool) (exitCode : Option Int) : StepOut :=
  match findTaskById st.data.tasks taskId with
  | none => { state := st, outcome := RAOutcome.exitProc 1, criticalSent := false }
  | some _ =>
    let tasks₁ := updateFirstById taskId (markInProgress nowTs) st.data.tasks
    let data₁ : TasksData := { st.data with tasks := tasks₁ }
    let st₁ : RunState := { st with data := data₁ }
    if exitCode ≠ some 0 then
      if shuttingDown then
        { state := st₁, outcome := RAOutcome.ret false, criticalSent := false }
      else
        match findTaskById tasks₁ taskId with
        | none =>
          { state := st₁, outcome := RAOutcome.exitProc (jsExitOr1 exitCode),
            criticalSent := false }
        | some t₁ =>
          let tErr := markError exitCode t₁
          let tasks₂ := updateFirstById taskId (markError exitCode) tasks₁
          let resets := countResetsForTask st.history taskId planSlug
          let history₂ := st.history ++
            [errorHistoryEntry tErr taskId planSlug nowTs elapsed resets]
          let model₂ := recordPairing st.model tErr false nowTs
          let wsErrors := countWorkstreamErrors history₂ tErr.workstream planSlug
          let critical := if 3 ≤ resets + 1 then true
            else if 3 ≤ wsErrors then true else false
          { state :=
              { data := { data₁ with tasks := tasks₂ }, history := history₂,
                model := model₂, fired := st.fired },
            outcome := RAOutcome.exitProc (jsExitOr1 exitCode), criticalSent := critical }
    else
      match findTaskById tasks₁ taskId with
      | none => { state := st₁, outcome := RAOutcome.ret true, criticalSent := false }
      | some t₁ =>
        let tDone := markCompleted nowTs t₁
        let tasks₂ := updateFirstById taskId (markCompleted nowTs) tasks₁
        let resets := countResetsForTask st.history taskId planSlug
        let history₂ := st.history ++
          [completedHistoryEntry tDone taskId planSlug nowTs elapsed resets]
        let model₂ := recordPairing st.model tDone true nowTs
        let ms := milestoneStep st.fired
          (tasks₂.filter (fun u => decide (u.status = TaskStatus.completed))).length
          tasks₂.length
        { state :=
            { data := { data₁ with tasks := tasks₂ }, history := history₂,
              model := model₂, fired := ms.2 },
          outcome := RAOutcome.ret true, criticalSent := false }

/-- How an unattended run ends in the loop model. -/
inductive LoopEnd where
  | procExit (code : Int)
  | stoppedEarly
  | noEligible
  | scriptOver
deriving DecidableEq, Repr

/-- The unattended run loop of the `run` command restricted to what the
failure claim concerns: ask the scheduler for the next task and hand it to
`runAgent`, continuing while it returns true.  The environment supplies one
agent exit code per iteration; the stop-file checks, iteration cap and
dependency-wait branches end the run without touching tasks and are elided. -/
def runLoop (ws : Option String) (planSlug nowTs : String) (elapsed : Int) :
    List (Option Int) → RunState → RunState × LoopEnd
  | [], st => (st, LoopEnd.scriptOver)
  | code :: rest, st =>
    match findNextTask st.data ws with
    | none => (st, LoopEnd.noEligible)
    | some taskId =>
      match runAgentStep st taskId planSlug nowTs elapsed false code with
      | { state := st₂, outcome := RAOutcome.exitProc c, criticalSent := _ } =>
        (st₂, LoopEnd.procExit c)
      | { state := st₂, outcome := RAOutcome.ret true, criticalSent := _ } =>
        runLoop ws planSlug nowTs elapsed rest st₂
      | { state := st₂, outcome := RAOutcome.ret false, criticalSent := _ } =>
        (st₂, LoopEnd.stoppedEarly)

/-- First pending task of the loop counterexample. -/
def loopTaskOne : Task :=
  { id := "T1", workstream := "A", title := "one", description := "", files := [],
    depends_on := [], status := TaskStatus.pending }

/-- Second pending task of the loop counterexample, independent of the first. -/
def loopTaskTwo : Task :=
  { id := "T2", workstream := "A", title := "two", description := "", files := [],
    depends_on := [], status := TaskStatus.pending }

/-- Starting state of the loop counterexample: two eligible tasks, empty
ledger and model, nothing fired. -/
def loopState : RunState :=
  { data := { tasks := [loopTaskOne, loopTaskTwo] }, history := [],
    model := { version := 1, entries := [] }, fired := [] }

/-- C2 counterexample: in an unattended multi-task run whose first agent
invocation exits 1 (not shutting down), the run ends by exiting the process
with code 1 while the second task is still pending and eligible — the loop
does not proceed to the next eligible task, contradicting the claim that only
a single-task invocation exits the process. -/
theorem runLoop_aborts_on_failure :
    (runLoop none "p" "ts" 5 [some 1, some 0] loopState).2 = LoopEnd.procExit 1 ∧
      findNextTask (runLoop none "p" "ts" 5 [some 1, some 0] loopState).1.data none =
        some "T2" ∧
      findTaskById (runLoop none "p" "ts" 5 [some 1, some 0] loopState).1.data.tasks
        "T2" = some loopTaskTwo := by
  refine ⟨?_, ?_, ?_⟩ <;> decide

/-- Lookup after an id-preserving first-match update. -/
theorem findTaskById_update (taskId : String) (f : Task → Task)
    (hf : ∀ u, (f u).id = u.id) (l : List Task) :
    findTaskById (updateFirstById taskId f l) taskId = (findTaskById l taskId).map f := by
  induction l with
  | nil => rfl
  | cons a l ih =>
    by_cases hid : a.id = taskId
    · show findTaskById (if a.id = taskId then f a :: l else _) taskId = _
      rw [if_pos hid]
      unfold findTaskById
      rw [List.find?_cons_of_pos _ (by simp [hf a, hid]),
        List.find?_cons_of_pos _ (by simp [hid])]
      rfl
    · show findTaskById (if a.id = taskId then _ else a :: updateFirstById taskId f l)
        taskId = _
      rw [if_neg hid]
      unfold findTaskById
      rw [List.find?_cons_of_neg _ (by simp [hid]), List.find?_cons_of_neg _ (by simp [hid])]
      exact ih

/-- C2 (amended): when the agent invocation for an existing task exits
nonzero and the process is not mid-graceful-shutdown, `runAgent` marks the
task `error` with the exit message, appends one `error` ledger entry carrying
the prior reset count, decides escalation from that count and the
just-written ledger, and then exits the whole process with `exitCode || 1` —
in unattended multi-task runs exactly as in single-task ones, so the run
loop never proceeds past a failed task within the same run. -/
theorem runAgent_error_aborts (st : RunState) (taskId planSlug nowTs : String)
    (elapsed : Int) (exitCode : Option Int) (t : Task)
    (hcode : exitCode ≠ some 0)
    (hfind : findTaskById st.data.tasks taskId = some t) :
    (runAgentStep st taskId planSlug nowTs elapsed false exitCode).outcome =
      RAOutcome.exitProc (jsExitOr1 exitCode) ∧
    (∃ t₂, findTaskById
        (runAgentStep st taskId planSlug nowTs elapsed false exitCode).state.data.tasks
        taskId = some t₂ ∧
      t₂.status = TaskStatus.error ∧ t₂.error = some (errMessage exitCode) ∧
      t₂.workstream = t.workstream) ∧
    (∃ e, (runAgentStep st taskId planSlug nowTs elapsed false exitCode).state.history =
        st.history ++ [e] ∧
      e.event = HistoryEvent.error ∧ e.task_id = taskId ∧ e.plan_slug = planSlug ∧
      e.resets = countResetsForTask st.history taskId planSlug ∧
      ((runAgentStep st taskId planSlug nowTs elapsed false exitCode).criticalSent = true ↔
        (3 ≤ countResetsForTask st.history taskId planSlug + 1 ∨
          (¬ 3 ≤ countResetsForTask st.history taskId planSlug + 1 ∧
            3 ≤ countWorkstreamErrors (st.history ++ [e]) t.workstream planSlug)))) := by
  have hfind₁ : findTaskById (updateFirstById taskId (markInProgress nowTs) st.data.tasks)
      taskId = some (markInProgress nowTs t) := by
    rw [findTaskById_update taskId (markInProgress nowTs) (fun u => rfl), hfind]
    rfl
  have hfind₂ : findTaskById (updateFirstById taskId (markError exitCode)
      (updateFirstById taskId (markInProgress nowTs) st.data.tasks)) taskId =
        some (markError exitCode (markInProgress nowTs t)) := by
    rw [findTaskById_update taskId (markError exitCode) (fun u => rfl), hfind₁]
    rfl
  have key : runAgentStep st taskId planSlug nowTs elapsed false exitCode =
      { state :=
          { data := { st.data with
              tasks := updateFirstById taskId (markError exitCode)
                (updateFirstById taskId (markInProgress nowTs) st.data.tasks) },
            history := st.history ++
              [errorHistoryEntry (markError exitCode (markInProgress nowTs t)) taskId
                planSlug nowTs elapsed (countResetsForTask st.history taskId planSlug)],
            model := recordPairing st.model (markError exitCode (markInProgress nowTs t))
              false nowTs,
            fired := st.fired },
        outcome := RAOutcome.exitProc (jsExitOr1 exitCode),
        criticalSent := if 3 ≤ countResetsForTask st.history taskId planSlug + 1 then true
          else if 3 ≤ countWorkstreamErrors (st.history ++
              [errorHistoryEntry (markError exitCode (markInProgress nowTs t)) taskId
                planSlug nowTs elapsed (countResetsForTask st.history taskId planSlug)])
              t.workstream planSlug then true
          else false } := by
    unfold runAgentStep
    rw [hfind]
    simp only []
    rw [if_pos hcode, if_neg (by simp : ¬ (false : Bool) = true), hfind₁]
    rfl
  refine ⟨?_, ⟨markError exitCode (markInProgress nowTs t), ?_, rfl, rfl, rfl⟩,
    ⟨errorHistoryEntry (markError exitCode (markInProgress nowTs t)) taskId planSlug nowTs
      elapsed (countResetsForTask st.history taskId planSlug), ?_, rfl, rfl, rfl, rfl, ?_⟩⟩
  · rw [key]
  · rw [key]
    exact hfind₂
  · rw [key]
  · rw [key]
    show (if 3 ≤ countResetsForTask st.history taskId planSlug + 1 then true
      else if 3 ≤ countWorkstreamErrors (st.history ++
          [errorHistoryEntry (markError exitCode (markInProgress nowTs t)) taskId
            planSlug nowTs elapsed (countResetsForTask st.history taskId planSlug)])
          t.workstream planSlug then true
      else false) = true ↔ _
    by_cases h1 : 3 ≤ countResetsForTask st.history taskId planSlug + 1
    · rw [if_pos h1]
      simp [h1]
    · rw [if_neg h1]
      by_cases h2 : 3 ≤ countWorkstreamErrors (st.history ++
          [errorHistoryEntry (markError exitCode (markInProgress nowTs t)) taskId
            planSlug nowTs elapsed (countResetsForTask st.history taskId planSlug)])
          t.workstream planSlug
      · rw [if_pos h2]
        simp [h1, h2]
      · rw [if_neg h2]
        simp [h1, h2]

/-- Witness for the amended C2 at the concrete two-task loop state with agent
exit code 1 on task T1. -/
theorem runAgent_error_aborts_witness :
    (some (1 : Int) ≠ some 0) ∧
    findTaskById loopState.data.tasks "T1" = some loopTaskOne ∧
    ((runAgentStep loopState "T1" "p" "ts" 5 false (some 1)).outcome =
      RAOutcome.exitProc (jsExitOr1 (some 1)) ∧
    (∃ t₂, findTaskById
        (runAgentStep loopState "T1" "p" "ts" 5 false (some 1)).state.data.tasks
        "T1" = some t₂ ∧
      t₂.status = TaskStatus.error ∧ t₂.error = some (errMessage (some 1)) ∧
      t₂.workstream = loopTaskOne.workstream) ∧
    (∃ e, (runAgentStep loopState "T1" "p" "ts" 5 false (some 1)).state.history =
        loopState.history ++ [e] ∧
      e.event = HistoryEvent.error ∧ e.task_id = "T1" ∧ e.plan_slug = "p" ∧
      e.resets = countResetsForTask loopState.history "T1" "p" ∧
      ((runAgentStep loopState "T1" "p" "ts" 5 false (some 1)).criticalSent = true ↔
        (3 ≤ countResetsForTask loopState.history "T1" "p" + 1 ∨
          (¬ 3 ≤ countResetsForTask loopState.history "T1" "p" + 1 ∧
            3 ≤ countWorkstreamErrors (loopState.history ++ [e])
              loopTaskOne.workstream "p"))))) :=
  ⟨by decide, by decide,
    runAgent_error_aborts loopState "T1" "p" "ts" 5 (some 1) loopTaskOne
      (by decide) (by decide)⟩

/-- Ledger entry: error event for task T1 in workstream A of plan p. -/
def escalErrorT1 : HistoryEntry :=
  { timestamp := "t1", event := HistoryEvent.error, task_id := "T1",
    plan_slug := "p", specialist := none, status := HistoryEvent.error,
    duration_ms := some 5, resets := 0, files := [], workstream := "A", title := "x" }

/-- Ledger entry: error event for task T2 in workstream A of plan p. -/
def escalErrorT2 : HistoryEntry :=
  { timestamp := "t2", event := HistoryEvent.error, task_id := "T2",
    plan_slug := "p", specialist := none, status := HistoryEvent.error,
    duration_ms := some 5, resets := 0, files := [], workstream := "A", title := "x" }

/-- Ledger entry: completed event for task T3, before its later reset and
error. -/
def escalCompletedT3 : HistoryEntry :=
  { timestamp := "t3", event := HistoryEvent.completed, task_id := "T3",
    plan_slug := "p", specialist := none, status := HistoryEvent.completed,
    duration_ms := some 5, resets := 0, files := [], workstream := "A", title := "x" }

/-- Ledger entry: reset event for task T3 after its completion. -/
def escalResetT3 : HistoryEntry :=
  { timestamp := "t4", event := HistoryEvent.reset, task_id := "T3",
    plan_slug := "p", specialist := none, status := HistoryEvent.reset,
    duration_ms := none, resets := 1, files := [], workstream := "A", title := "x" }

/-- Escalation ledger: T1 and T2 errored, T3 completed then reset — so after
T3 errors again, three distinct tasks of workstream A are currently failing. -/
def escalLedger : List HistoryEntry :=
  [escalErrorT1, escalErrorT2, escalCompletedT3, escalResetT3]

/-- Task T3, pending again after its reset. -/
def escalTask : Task :=
  { id := "T3", workstream := "A", title := "t3", description := "", files := [],
    depends_on := [], status := TaskStatus.pending }

/-- Controller state right before rerunning T3 over the escalation ledger. -/
def escalState : RunState :=
  { data := { tasks := [escalTask] }, history := escalLedger,
    model := emptyModel, fired := [] }

/-- C9 (code bug): T3 exits nonzero after T1 and T2 errored and T3 itself
completed and was reset earlier; the ledger then holds three distinct tasks of
workstream A whose error events have no later completed event, and T3 has not
failed 3 times (resets + current error = 2), yet no critical notification is
dispatched — the workstream branch counts only 2 because
`countWorkstreamErrors` discards T3 for its stale earlier completion. -/
theorem escalation_misses_stale_completion :
    (runAgentStep escalState "T3" "p" "ts" 5 false (some 1)).criticalSent = false ∧
      countResetsForTask escalState.history "T3" "p" + 1 = 2 ∧
      countWorkstreamErrors
        (runAgentStep escalState "T3" "p" "ts" 5 false (some 1)).state.history "A" "p" = 2 ∧
      currentlyErroredCount
        (runAgentStep escalState "T3" "p" "ts" 5 false (some 1)).state.history "A" "p" = 3 := by
  refine ⟨?_, ?_, ?_, ?_⟩ <;> decide

end Bart
